import Mathlib

/-!
Verification development for the react-foam state container
(`createStore`, `memo`, `computed` in the library source).

The embedding models JavaScript reference identity by decidable equality on
the Lean type chosen for the state: distinct allocations are given distinct
identity tags, so Lean equality of the modelled values coincides with the
`!==` comparison performed by the source.

Listeners are modelled by numeric identities.  The source keeps them in a
JS `Set` and notifies them with `listeners.forEach((listener) => listener(state))`;
a `Set` iterates in insertion order, skips entries deleted before being
visited, and visits entries appended during iteration.  We model the listener
set as an insertion-ordered duplicate-free list of identities.  A listener,
when invoked, may call unsubscribe closures of other listeners (the effect a
listener can have on the store that the claims exercise); the behaviour map
`beh` gives, for each listener identity, the identities it unsubscribes when
it runs.  Purely observing listeners have `beh l = []`.
-/

namespace ReactFoam

/-- JS `Set.add`: appends the element unless it is already a member
(insertion order preserved, membership idempotent). -/
def setAdd {α : Type} [DecidableEq α] (s : List α) (x : α) : List α :=
  if x ∈ s then s else s ++ [x]

/-- Applies `Set.delete` for each identity in `acts`, left to right
(the effect of a listener calling several unsubscribe closures). -/
def eraseAll (s : List Nat) (acts : List Nat) : List Nat :=
  acts.foldl (fun t x => t.erase x) s

/-- State of one store closure: the current `state` value and the
insertion-ordered contents of the `listeners` set. -/
structure StoreSt (T : Type) where
  state : T
  listeners : List Nat
deriving Repr, DecidableEq

/-- Argument of `setState`: either a direct replacement value or an updater
function.  The updater may throw (`Except.error` carries the thrown value,
identified by a number). -/
inductive Updater (T : Type) where
  | value : T → Updater T
  | fn : (T → Except Nat T) → Updater T

/-- Computation of the candidate next state performed by `setState`:
`typeof updater === "function" ? updater(state) : updater`.  A thrown
exception surfaces as `Except.error`. -/
def evalUpd {T : Type} : Updater T → T → Except Nat T
  | .value v, _ => .ok v
  | .fn f, s => f s

/-- `createStore(initialState)`: state is the initial value, the listener
set is empty. -/
def createStore {T : Type} (initialState : T) : StoreSt T :=
  { state := initialState, listeners := [] }

/-- `getState()`: returns the current stored value. -/
def getState {T : Type} (st : StoreSt T) : T :=
  st.state

/-- `subscribe(listener)`: adds the listener to the set. -/
def subscribe {T : Type} (l : Nat) (st : StoreSt T) : StoreSt T :=
  { st with listeners := setAdd st.listeners l }

/-- The closure returned by `subscribe(listener)`: `() => listeners.delete(listener)`. -/
def unsubscribe {T : Type} (l : Nat) (st : StoreSt T) : StoreSt T :=
  { st with listeners := st.listeners.erase l }

/-- `destroy()`: `listeners.clear()`. -/
def destroy {T : Type} (st : StoreSt T) : StoreSt T :=
  { st with listeners := [] }

theorem eraseAll_length_le (acts : List Nat) (s : List Nat) :
    (eraseAll s acts).length ≤ s.length := by
  induction acts generalizing s with
  | nil => exact Nat.le_refl _
  | cons a acts ih =>
      calc (eraseAll (s.erase a) acts).length ≤ (s.erase a).length := ih _
        _ ≤ s.length := List.length_erase_le a s

/-- `listeners.forEach((listener) => listener(state))`, for listeners whose
effect is to delete other listeners from the set.  `toVisit` is the part of
the set the iterator has not reached yet, `lset` the whole current set; a
deletion removes the identity from both (a pending entry that is deleted is
skipped, matching JS `Set` iteration).  Returns the final set contents and
the invocation log: the visited listeners in order, each paired with the
state value it was passed. -/
def notifyLoop {T : Type} (beh : Nat → List Nat) (ns : T) :
    List Nat → List Nat → List Nat × List (Nat × T)
  | [], lset => (lset, [])
  | l :: rest, lset =>
      let lset1 := eraseAll lset (beh l)
      let rest1 := eraseAll rest (beh l)
      let p := notifyLoop beh ns rest1 lset1
      (p.1, (l, ns) :: p.2)
termination_by toVisit _ => toVisit.length
decreasing_by
  exact Nat.lt_succ_of_le (eraseAll_length_le _ _)

/-- `setState(updater)`: computes the candidate next state (invoking the
updater when the argument is a function), and if it is not reference-identical
to the current state, stores it and synchronously notifies every listener.
Returns the resulting store, the listener invocation log, and the exception
propagated to the caller (`none` when nothing was thrown; on a throw the
store is returned unchanged and the log is empty). -/
def setState {T : Type} [DecidableEq T] (beh : Nat → List Nat)
    (u : Updater T) (st : StoreSt T) :
    StoreSt T × List (Nat × T) × Option Nat :=
  match evalUpd u st.state with
  | .error e => (st, [], some e)
  | .ok nextState =>
      if nextState = st.state then (st, [], none)
      else
        let p := notifyLoop beh nextState st.listeners st.listeners
        ({ state := nextState, listeners := p.1 }, p.2, none)

/-- Behaviour of purely observing listeners: no mutation of the listener set. -/
def behPure : Nat → List Nat := fun _ => []

theorem eraseAll_nil (s : List Nat) : eraseAll s [] = s := rfl

theorem notifyLoop_pure {T : Type} (ns : T) (tv lset : List Nat) :
    notifyLoop behPure ns tv lset = (lset, tv.map fun l => (l, ns)) := by
  induction tv generalizing lset with
  | nil => simp [notifyLoop]
  | cons l rest ih => simp [notifyLoop, behPure, eraseAll_nil, ih]

theorem setState_log_pure {T : Type} [DecidableEq T]
    (st : StoreSt T) (u : Updater T) (c : T)
    (heval : evalUpd u st.state = Except.ok c) (hc : c ≠ st.state) :
    (setState behPure u st).2.1 = st.listeners.map (fun l => (l, c)) := by
  simp [setState, heval, hc, notifyLoop_pure]

/-- CLAIM C1.  A `setState` call whose computed candidate differs from the
current state by reference identity stores the candidate and invokes every
registered listener with it; when the candidate is reference-identical the
store is untouched and no listener runs — in particular `setState(s => s)`
invokes no listener and leaves `getState()` returning the same reference. -/
theorem setState_refEq_gate {T : Type} [DecidableEq T]
    (st : StoreSt T) (u : Updater T) (c : T)
    (heval : evalUpd u st.state = Except.ok c) :
    (c ≠ st.state →
      (setState behPure u st).1.state = c ∧
      (setState behPure u st).2.1 = st.listeners.map (fun l => (l, c)) ∧
      (setState behPure u st).2.2 = none) ∧
    (c = st.state → setState behPure u st = (st, [], none)) ∧
    setState behPure (Updater.fn (fun s => Except.ok s)) st = (st, [], none) := by
  refine ⟨fun hne => ?_, fun heq => ?_, ?_⟩
  · simp [setState, heval, hne, notifyLoop_pure]
  · simp [setState, heval, heq]
  · simp [setState, evalUpd]

theorem setState_refEq_gate_witness :
    (setState behPure (Updater.fn (fun s => Except.ok (s + 1)))
      (StoreSt.mk (0 : Nat) [7])).1.state = 1 ∧
    (setState behPure (Updater.fn (fun s => Except.ok (s + 1)))
      (StoreSt.mk (0 : Nat) [7])).2.1 = [(7, 1)] ∧
    (setState behPure (Updater.fn (fun s => Except.ok (s + 1)))
      (StoreSt.mk (0 : Nat) [7])).2.2 = none := by
  have h := setState_refEq_gate (StoreSt.mk (0 : Nat) [7])
    (Updater.fn (fun s => Except.ok (s + 1))) 1 rfl
  simpa using h.1 (by decide)

/-- CLAIM C2.  A throwing updater propagates its exception to the caller of
`setState`, the store keeps the old state reference, and no listener is
invoked. -/
theorem setState_throw_atomic {T : Type} [DecidableEq T]
    (beh : Nat → List Nat) (st : StoreSt T) (f : T → Except Nat T) (e : Nat)
    (heval : f st.state = Except.error e) :
    setState beh (Updater.fn f) st = (st, [], some e) := by
  simp [setState, evalUpd, heval]

theorem setState_throw_atomic_witness :
    setState behPure (Updater.fn (fun _ => Except.error 3))
      (StoreSt.mk (0 : Nat) [7]) = (StoreSt.mk 0 [7], [], some 3) :=
  setState_throw_atomic behPure (StoreSt.mk 0 [7]) (fun _ => Except.error 3) 3 rfl

/-- A JS value as far as the container observes it: `undefined`, a primitive,
or an object reference (identified by its allocation number; `!==` on
references compares the numbers). -/
inductive JVal where
  | undefined : JVal
  | prim : Int → JVal
  | ref : Nat → JVal
deriving DecidableEq, Repr

/-- A JS object: its allocation identity `oid` and its own enumerable
fields.  Two objects are reference-identical exactly when their `oid`s
agree; distinct literals receive distinct `oid`s. -/
structure Obj where
  oid : Nat
  fields : List (String × JVal)
deriving DecidableEq, Repr

/-- Property read `o[k]`: the stored value, or `undefined` when the key is
absent. -/
def getField (o : Obj) (k : String) : JVal :=
  match o.fields.lookup k with
  | some v => v
  | none => JVal.undefined

/-- CLAIM C4.  A write fully replaces the previous state with the produced
value — no merging: generally the stored state is exactly the candidate,
and concretely, after `createStore({a:1,b:2})` and `setState({a:9})`,
`getState()` is the `{a:9}` object itself and reading `b` gives `undefined`. -/
theorem setState_replaces_not_merges
    (st : StoreSt Obj) (beh : Nat → List Nat) (u : Updater Obj) (c : Obj)
    (heval : evalUpd u st.state = Except.ok c) (hne : c ≠ st.state) :
    (setState beh u st).1.state = c ∧
    (setState behPure
        (Updater.value (Obj.mk 1 [("a", JVal.prim 9)]))
        (createStore (Obj.mk 0 [("a", JVal.prim 1), ("b", JVal.prim 2)]))).1.state
      = Obj.mk 1 [("a", JVal.prim 9)] ∧
    getField (setState behPure
        (Updater.value (Obj.mk 1 [("a", JVal.prim 9)]))
        (createStore (Obj.mk 0 [("a", JVal.prim 1), ("b", JVal.prim 2)]))).1.state "b"
      = JVal.undefined := by
  refine ⟨?_, by decide, by decide⟩
  simp [setState, heval, hne]

theorem setState_replaces_not_merges_witness :
    (setState behPure (Updater.value (Obj.mk 1 [("a", JVal.prim 9)]))
      (StoreSt.mk (Obj.mk 0 [("a", JVal.prim 1), ("b", JVal.prim 2)]) [])).1.state
      = Obj.mk 1 [("a", JVal.prim 9)] := by
  have h := setState_replaces_not_merges
    (StoreSt.mk (Obj.mk 0 [("a", JVal.prim 1), ("b", JVal.prim 2)]) [])
    behPure (Updater.value (Obj.mk 1 [("a", JVal.prim 9)]))
    (Obj.mk 1 [("a", JVal.prim 9)]) rfl (by decide)
  exact h.1

/-- CLAIM C7.  The closure returned by `subscribe(l)` removes exactly `l`:
a later accepted write never invokes `l` but still invokes an unrelated
listener `l2`; calling the closure again is a no-op that leaves the store
(and hence every other registered listener) untouched. -/
theorem unsubscribe_removes_exactly {T : Type} [DecidableEq T]
    (st : StoreSt T) (l l2 : Nat) (hne : l ≠ l2)
    (hnd : st.listeners.Nodup) (hl2 : l2 ∈ st.listeners)
    (u : Updater T) (c : T)
    (heval : evalUpd u st.state = Except.ok c) (hc : c ≠ st.state) :
    l ∉ (unsubscribe l st).listeners ∧
    l2 ∈ (unsubscribe l st).listeners ∧
    (∀ x : T, (l, x) ∉ (setState behPure u (unsubscribe l st)).2.1) ∧
    (l2, c) ∈ (setState behPure u (unsubscribe l st)).2.1 ∧
    unsubscribe l (unsubscribe l st) = unsubscribe l st := by
  have hmem : l ∉ (st.listeners.erase l) := hnd.not_mem_erase
  have hmem2 : l2 ∈ st.listeners.erase l := (List.mem_erase_of_ne hne.symm).2 hl2
  have hstate : (unsubscribe l st).state = st.state := rfl
  refine ⟨hmem, hmem2, ?_, ?_, ?_⟩
  · intro x hx
    have := setState_log_pure (unsubscribe l st) u c (by simpa [unsubscribe] using heval) hc
    rw [this] at hx
    rcases List.mem_map.1 hx with ⟨a, ha, hax⟩
    cases hax
    exact hmem ha
  · have := setState_log_pure (unsubscribe l st) u c (by simpa [unsubscribe] using heval) hc
    rw [this]
    exact List.mem_map.2 ⟨l2, hmem2, rfl⟩
  · simp [unsubscribe, List.erase_of_not_mem hmem]

theorem unsubscribe_removes_exactly_witness :
    (1 : Nat) ∉ (unsubscribe 1 (StoreSt.mk (0 : Nat) [1, 2])).listeners ∧
    (2 : Nat) ∈ (unsubscribe 1 (StoreSt.mk (0 : Nat) [1, 2])).listeners ∧
    ((1, 5) ∉ (setState behPure (Updater.value 5)
        (unsubscribe 1 (StoreSt.mk (0 : Nat) [1, 2]))).2.1) ∧
    ((2, 5) ∈ (setState behPure (Updater.value 5)
        (unsubscribe 1 (StoreSt.mk (0 : Nat) [1, 2]))).2.1) := by
  have h := unsubscribe_removes_exactly (StoreSt.mk (0 : Nat) [1, 2]) 1 2
    (by decide) (by decide) (by decide) (Updater.value 5) 5 rfl (by decide)
  exact ⟨h.1, h.2.1, h.2.2.1 5, h.2.2.2.1⟩

/-- CLAIM C8.  `destroy()` clears all listeners: a later accepted write still
updates the stored value but invokes none of the previously registered
listeners; a second `destroy()` is a no-op (and cannot throw — the operation
is total); `subscribe` after `destroy` works, and an accepted write then
notifies the new listener exactly as on a fresh store. -/
theorem destroy_clears_listeners {T : Type} [DecidableEq T]
    (st : StoreSt T) (beh : Nat → List Nat) (l : Nat) (u : Updater T) (c : T)
    (heval : evalUpd u st.state = Except.ok c) (hc : c ≠ st.state) :
    (destroy st).listeners = [] ∧
    (setState beh u (destroy st)).1.state = c ∧
    (setState beh u (destroy st)).2.1 = [] ∧
    destroy (destroy st) = destroy st ∧
    (subscribe l (destroy st)).listeners = [l] ∧
    (setState behPure u (subscribe l (destroy st))).2.1 = [(l, c)] := by
  refine ⟨rfl, ?_, ?_, rfl, ?_, ?_⟩
  · simp [setState, destroy, heval, hc, notifyLoop]
  · simp [setState, destroy, heval, hc, notifyLoop]
  · simp [subscribe, destroy, setAdd]
  · simp [setState, destroy, subscribe, setAdd, heval, hc, notifyLoop_pure]

theorem destroy_clears_listeners_witness :
    (destroy (StoreSt.mk (0 : Nat) [4, 7])).listeners = [] ∧
    (setState behPure (Updater.value 5)
        (destroy (StoreSt.mk (0 : Nat) [4, 7]))).1.state = 5 ∧
    (setState behPure (Updater.value 5)
        (destroy (StoreSt.mk (0 : Nat) [4, 7]))).2.1 = [] ∧
    (setState behPure (Updater.value 5)
        (subscribe 9 (destroy (StoreSt.mk (0 : Nat) [4, 7])))).2.1 = [(9, 5)] := by
  have h := destroy_clears_listeners (StoreSt.mk (0 : Nat) [4, 7]) behPure 9
    (Updater.value 5) 5 rfl (by decide)
  exact ⟨h.1, h.2.1, h.2.2.1, h.2.2.2.2.2⟩

/-- A dynamically typed JS value as `setState` classifies it: either a
non-function value or a function value.  A function is identified by its
reference number; the environment `fenv` gives the behaviour of each
function reference when it is called. -/
inductive DVal where
  | base : Nat → DVal
  | func : Nat → DVal
deriving DecidableEq, Repr

/-- The runtime test `typeof updater === "function"`. -/
def isFunction : DVal → Bool
  | .func _ => true
  | .base _ => false

/-- The candidate computation of `setState` over dynamic values:
`typeof updater === "function" ? updater(state) : updater` — a function
argument is called on the current state, any other argument is taken
verbatim. -/
def evalArgD (fenv : Nat → DVal → DVal) (arg s : DVal) : DVal :=
  match arg with
  | .func i => fenv i s
  | .base n => .base n

/-- `setState` over dynamic values, classifying its single argument with the
runtime function-type test. -/
def setStateD (fenv : Nat → DVal → DVal) (beh : Nat → List Nat)
    (arg : DVal) (st : StoreSt DVal) :
    StoreSt DVal × List (Nat × DVal) × Option Nat :=
  let nextState := evalArgD fenv arg st.state
  if nextState = st.state then (st, [], none)
  else
    let p := notifyLoop beh nextState st.listeners st.listeners
    ({ state := nextState, listeners := p.1 }, p.2, none)

/-- CLAIM C9.  A function value passed to `setState` is always invoked as an
updater (the candidate is its application to the current state), so a
function value can never be installed as state through the direct-replacement
branch: if the post-state is some function value `v`, then `v` was either
produced by calling the argument or was already the state. -/
theorem setState_function_always_updater
    (fenv : Nat → DVal → DVal) (beh : Nat → List Nat) (i : Nat)
    (st : StoreSt DVal) (v : DVal)
    (hfn : isFunction v = true)
    (h1 : fenv i st.state ≠ v) (h2 : st.state ≠ v) :
    (setStateD fenv beh (DVal.func i) st).1.state
      = (if fenv i st.state = st.state then st.state else fenv i st.state) ∧
    (setStateD fenv beh (DVal.func i) st).1.state ≠ v := by
  have harg : evalArgD fenv (DVal.func i) st.state = fenv i st.state := rfl
  constructor
  · by_cases hc : fenv i st.state = st.state <;>
      simp [setStateD, evalArgD, hc]
  · by_cases hc : fenv i st.state = st.state <;>
      simp [setStateD, evalArgD, hc, h1, h2]

theorem setState_function_always_updater_witness :
    (setStateD (fun _ _ => DVal.base 3) behPure (DVal.func 0)
        (StoreSt.mk (DVal.base 1) [])).1.state = DVal.base 3 ∧
    (setStateD (fun _ _ => DVal.base 3) behPure (DVal.func 0)
        (StoreSt.mk (DVal.base 1) [])).1.state ≠ DVal.func 0 := by
  have h := setState_function_always_updater (fun _ _ => DVal.base 3) behPure 0
    (StoreSt.mk (DVal.base 1) []) (DVal.func 0) (by decide) (by decide) (by decide)
  exact ⟨by simpa using h.1, h.2⟩

/-- Body of a selector passed to `memo`: a computation that may read
top-level properties of its state argument (the only interaction the
instrumenting proxy observes) and finally returns a value — possibly the
argument object itself, as the identity selector does.  The continuation of
a read is an arbitrary function, so the program can branch on the values it
reads exactly as a JS selector can. -/
inductive SelBody where
  | done : JVal → SelBody
  | retArg : SelBody
  | read : String → (JVal → SelBody) → SelBody

/-- Runs a selector body against state object `o`, where the selector
argument (what `retArg` returns) is the value `argVal`.  Property reads go
straight to `o`. -/
def runSel (o : Obj) (argVal : JVal) : SelBody → JVal
  | .done v => v
  | .retArg => argVal
  | .read k cont => runSel o argVal (cont (getField o k))

/-- Runs a selector body through the instrumented proxy: every top-level
property read first records its key in the `tracked` set
(`tracked.add(key); return Reflect.get(target, key)`), then reads from the
target `o`.  Returns the result and the recorded keys in insertion order. -/
def runTracked (o : Obj) (argVal : JVal) : SelBody → List String → JVal × List String
  | .done v, acc => (v, acc)
  | .retArg, acc => (argVal, acc)
  | .read k cont, acc => runTracked o argVal (cont (getField o k)) (setAdd acc k)

/-- Mutable cache of one memoized selector: `hasRun`, `lastState`,
`lastResult` and `trackedKeys` from the source. -/
structure MemoCache where
  hasRun : Bool
  lastState : Option Obj
  lastResult : Option JVal
  trackedKeys : List String
deriving DecidableEq, Repr

/-- Initial cache of `memo(selector)`: not yet run, both caches `null`,
no tracked keys. -/
def initialCache : MemoCache :=
  { hasRun := false, lastState := none, lastResult := none, trackedKeys := [] }

/-- One call of the function returned by `memo(selector)`.  On the first
call the selector runs against a fresh proxy over `s` (its reference number
is `proxyId`) while tracked keys are recorded; afterwards the cache is
primed.  On later calls, `trackedKeys.some(key => lastState![key] !== state[key])`
decides between returning the cached result and re-running the selector on
the raw state.  Besides the result and the new cache, the third component
reports the argument the wrapped selector was invoked on (`none` on a cache
hit). -/
def memoStep (sel : SelBody) (c : MemoCache) (s : Obj) (proxyId : Nat) :
    JVal × MemoCache × Option JVal :=
  if c.hasRun = false then
    let p := runTracked s (JVal.ref proxyId) sel []
    (p.1, { hasRun := true, lastState := some s, lastResult := some p.1,
            trackedKeys := p.2 }, some (JVal.ref proxyId))
  else
    let lastS := c.lastState.getD s
    let hasChanged := c.trackedKeys.any (fun k => getField lastS k ≠ getField s k)
    if hasChanged then
      let r := runSel s (JVal.ref s.oid) sel
      (r, { c with lastState := some s, lastResult := some r }, some (JVal.ref s.oid))
    else
      (c.lastResult.getD JVal.undefined, c, none)

/-- CLAIM C5.  After the first call, when every tracked key of the current
state is reference-equal to the cached last state the memoized selector
returns the cached result without invoking the wrapped selector and leaves
the cache untouched; when some tracked key differs it re-invokes the
selector on the raw current state, updates the cached last state and last
result, and returns the new result. -/
theorem memo_hit_and_miss
    (sel : SelBody) (c : MemoCache) (sp s : Obj) (p : Nat) (r : JVal)
    (hrun : c.hasRun = true) (hls : c.lastState = some sp)
    (hlr : c.lastResult = some r) :
    ((∀ k ∈ c.trackedKeys, getField sp k = getField s k) →
      memoStep sel c s p = (r, c, none)) ∧
    ((∃ k ∈ c.trackedKeys, getField sp k ≠ getField s k) →
      memoStep sel c s p =
        (runSel s (JVal.ref s.oid) sel,
         { c with lastState := some s,
                  lastResult := some (runSel s (JVal.ref s.oid) sel) },
         some (JVal.ref s.oid))) := by
  constructor
  · intro hsame
    simp [memoStep, hrun, hls, hlr]
    exact fun k hk => hsame k hk
  · intro hdiff
    simp [memoStep, hrun, hls, hlr]
    exact hdiff

theorem memo_hit_and_miss_witness :
    memoStep (SelBody.read "a" (fun v => SelBody.done v))
        (MemoCache.mk true (some (Obj.mk 0 [("a", JVal.prim 1), ("u", JVal.prim 5)]))
          (some (JVal.prim 1)) ["a"])
        (Obj.mk 2 [("a", JVal.prim 1), ("u", JVal.prim 6)]) 3
      = (JVal.prim 1,
         MemoCache.mk true (some (Obj.mk 0 [("a", JVal.prim 1), ("u", JVal.prim 5)]))
          (some (JVal.prim 1)) ["a"], none) ∧
    memoStep (SelBody.read "a" (fun v => SelBody.done v))
        (MemoCache.mk true (some (Obj.mk 0 [("a", JVal.prim 1), ("u", JVal.prim 5)]))
          (some (JVal.prim 1)) ["a"])
        (Obj.mk 2 [("a", JVal.prim 7), ("u", JVal.prim 5)]) 3
      = (JVal.prim 7,
         MemoCache.mk true (some (Obj.mk 2 [("a", JVal.prim 7), ("u", JVal.prim 5)]))
          (some (JVal.prim 7)) ["a"], some (JVal.ref 2)) := by
  constructor
  · have h := memo_hit_and_miss (SelBody.read "a" (fun v => SelBody.done v))
      (MemoCache.mk true (some (Obj.mk 0 [("a", JVal.prim 1), ("u", JVal.prim 5)]))
        (some (JVal.prim 1)) ["a"])
      (Obj.mk 0 [("a", JVal.prim 1), ("u", JVal.prim 5)])
      (Obj.mk 2 [("a", JVal.prim 1), ("u", JVal.prim 6)]) 3 (JVal.prim 1)
      rfl rfl rfl
    exact h.1 (by decide)
  · have h := memo_hit_and_miss (SelBody.read "a" (fun v => SelBody.done v))
      (MemoCache.mk true (some (Obj.mk 0 [("a", JVal.prim 1), ("u", JVal.prim 5)]))
        (some (JVal.prim 1)) ["a"])
      (Obj.mk 0 [("a", JVal.prim 1), ("u", JVal.prim 5)])
      (Obj.mk 2 [("a", JVal.prim 7), ("u", JVal.prim 5)]) 3 (JVal.prim 1)
      rfl rfl rfl
    have h2 := h.2 ⟨"a", by decide, by decide⟩
    simpa [runSel, getField] using h2

/-- CLAIM C6.  The tracked-key set is computed exactly once, on the first
call, by recording property accesses through the instrumented proxy; every
later call leaves it unchanged, and a change confined to keys outside the
first-call tracked set never re-invokes the selector or changes the cached
result — whatever keys the selector body would read on the new input. -/
theorem memo_tracked_keys_fixed
    (sel : SelBody) (c : MemoCache) (sp s s1 : Obj) (p p1 : Nat) (r : JVal)
    (hrun : c.hasRun = true) (hls : c.lastState = some sp)
    (hlr : c.lastResult = some r)
    (houtside : ∀ k ∈ c.trackedKeys, getField sp k = getField s k) :
    (memoStep sel initialCache s1 p1).2.1.trackedKeys
      = (runTracked s1 (JVal.ref p1) sel []).2 ∧
    (memoStep sel c s p).2.1.trackedKeys = c.trackedKeys ∧
    memoStep sel c s p = (r, c, none) := by
  refine ⟨by simp [memoStep, initialCache], ?_, ?_⟩
  · by_cases h : ∃ k ∈ c.trackedKeys, getField (c.lastState.getD s) k ≠ getField s k <;>
      simp [memoStep, hrun, h]
  · simp [memoStep, hrun, hls, hlr]
    exact fun k hk => houtside k hk

theorem memo_tracked_keys_fixed_witness :
    (memoStep (SelBody.read "a" (fun v => SelBody.done v)) initialCache
        (Obj.mk 9 [("a", JVal.prim 1)]) 10).2.1.trackedKeys = ["a"] ∧
    memoStep (SelBody.read "a" (fun v => SelBody.done v))
        (MemoCache.mk true (some (Obj.mk 0 [("a", JVal.prim 1), ("u", JVal.prim 5)]))
          (some (JVal.prim 1)) ["a"])
        (Obj.mk 2 [("a", JVal.prim 1), ("u", JVal.prim 6)]) 3
      = (JVal.prim 1,
         MemoCache.mk true (some (Obj.mk 0 [("a", JVal.prim 1), ("u", JVal.prim 5)]))
          (some (JVal.prim 1)) ["a"], none) := by
  have h := memo_tracked_keys_fixed (SelBody.read "a" (fun v => SelBody.done v))
    (MemoCache.mk true (some (Obj.mk 0 [("a", JVal.prim 1), ("u", JVal.prim 5)]))
      (some (JVal.prim 1)) ["a"])
    (Obj.mk 0 [("a", JVal.prim 1), ("u", JVal.prim 5)])
    (Obj.mk 2 [("a", JVal.prim 1), ("u", JVal.prim 6)])
    (Obj.mk 9 [("a", JVal.prim 1)]) 3 10 (JVal.prim 1)
    rfl rfl rfl (by decide)
  refine ⟨?_, h.2.2⟩
  simpa [runTracked, getField, setAdd] using h.1

/-- CLAIM C10.  On the first call the wrapped selector is applied to the
instrumented proxy, a fresh object that is not reference-identical to the
input state, while the cached last state is the raw input; hence for the
identity selector the first call returns the proxy, which is not
reference-equal to the input state. -/
theorem memo_first_call_proxy
    (sel : SelBody) (s : Obj) (p : Nat) (hp : p ≠ s.oid) :
    (memoStep sel initialCache s p).2.2 = some (JVal.ref p) ∧
    JVal.ref p ≠ JVal.ref s.oid ∧
    (memoStep sel initialCache s p).2.1.lastState = some s ∧
    (memoStep SelBody.retArg initialCache s p).1 = JVal.ref p := by
  refine ⟨by simp [memoStep, initialCache], ?_, by simp [memoStep, initialCache], ?_⟩
  · intro h
    exact hp (by injection h)
  · simp [memoStep, initialCache, runTracked]

theorem memo_first_call_proxy_witness :
    (memoStep SelBody.retArg initialCache (Obj.mk 0 [("a", JVal.prim 1)]) 1).2.2
      = some (JVal.ref 1) ∧
    (memoStep SelBody.retArg initialCache (Obj.mk 0 [("a", JVal.prim 1)]) 1).1
      = JVal.ref 1 ∧
    JVal.ref 1 ≠ JVal.ref (Obj.mk 0 [("a", JVal.prim 1)]).oid := by
  have h := memo_first_call_proxy SelBody.retArg (Obj.mk 0 [("a", JVal.prim 1)]) 1
    (by decide)
  exact ⟨h.1, h.2.2.2, h.2.1⟩

theorem eraseAll_subset (acts : List Nat) (s : List Nat) :
    eraseAll s acts ⊆ s := by
  induction acts generalizing s with
  | nil => exact fun x h => h
  | cons a acts ih =>
      exact fun x h => List.erase_subset a s (ih (s.erase a) h)

theorem eraseAll_nodup (acts : List Nat) (s : List Nat) (h : s.Nodup) :
    (eraseAll s acts).Nodup := by
  induction acts generalizing s with
  | nil => exact h
  | cons a acts ih => exact ih _ (h.erase a)

theorem mem_eraseAll_of_not_mem (acts : List Nat) (s : List Nat) (l : Nat)
    (hl : l ∈ s) (hna : l ∉ acts) : l ∈ eraseAll s acts := by
  induction acts generalizing s with
  | nil => exact hl
  | cons a acts ih =>
      have hne : l ≠ a := fun h => hna (h ▸ List.mem_cons_self a acts)
      exact ih _ ((List.mem_erase_of_ne hne).2 hl) (fun h => hna (List.mem_cons_of_mem a h))

theorem not_mem_eraseAll_of_mem (acts : List Nat) (s : List Nat) (l : Nat)
    (hnd : s.Nodup) (ha : l ∈ acts) : l ∉ eraseAll s acts := by
  induction acts generalizing s with
  | nil => cases ha
  | cons a acts ih =>
      intro hmem
      by_cases hla : l = a
      · subst hla
        by_cases hl : l ∈ acts
        · exact ih _ (hnd.erase l) hl hmem
        · have : l ∈ s.erase l := eraseAll_subset acts (s.erase l) hmem
          exact hnd.not_mem_erase this
      · have hl : l ∈ acts := by
          rcases List.mem_cons.1 ha with h | h
          · exact absurd h hla
          · exact h
        exact ih _ (hnd.erase a) hl hmem

/-- Combined behaviour of the fan-out loop: every invocation receives the
new state; every invoked identity was pending when the loop started; and,
when the pending list is duplicate-free, each pending listener is either
invoked exactly once, or invoked zero times because an invoked listener had
it among its unsubscribe targets. -/
theorem notifyLoop_spec_aux {T : Type} (beh : Nat → List Nat) (ns : T) :
    ∀ (n : Nat) (tv ls : List Nat), tv.length ≤ n →
      (∀ e ∈ (notifyLoop beh ns tv ls).2, e.2 = ns) ∧
      (∀ x ∈ (notifyLoop beh ns tv ls).2.map Prod.fst, x ∈ tv) ∧
      (tv.Nodup → ∀ l ∈ tv,
        (((notifyLoop beh ns tv ls).2.map Prod.fst).count l = 1) ∨
        ((((notifyLoop beh ns tv ls).2.map Prod.fst).count l = 0) ∧
          ∃ m ∈ (notifyLoop beh ns tv ls).2.map Prod.fst, l ∈ beh m)) := by
  intro n
  induction n with
  | zero =>
      intro tv ls hlen
      have htv : tv = [] := List.eq_nil_of_length_eq_zero (Nat.le_zero.1 hlen)
      subst htv
      refine ⟨by simp [notifyLoop], by simp [notifyLoop], ?_⟩
      intro _ l hl
      cases hl
  | succ n ih =>
      intro tv ls hlen
      match tv, hlen with
      | [], _ =>
          refine ⟨by simp [notifyLoop], by simp [notifyLoop], ?_⟩
          intro _ l hl
          cases hl
      | x :: rest, hlen =>
          have hrest : rest.length ≤ n :=
            Nat.lt_succ_iff.1 (Nat.lt_of_lt_of_le (Nat.lt_succ_of_le (Nat.le_refl _)) hlen)
          have hr1 : (eraseAll rest (beh x)).length ≤ n :=
            Nat.le_trans (eraseAll_length_le _ _) hrest
          have IH := ih (eraseAll rest (beh x)) (eraseAll ls (beh x)) hr1
          have hunf : notifyLoop beh ns (x :: rest) ls =
              ((notifyLoop beh ns (eraseAll rest (beh x)) (eraseAll ls (beh x))).1,
               (x, ns) :: (notifyLoop beh ns (eraseAll rest (beh x)) (eraseAll ls (beh x))).2) := by
            simp [notifyLoop]
          refine ⟨?_, ?_, ?_⟩
          · intro e he
            rw [hunf] at he
            rcases List.mem_cons.1 he with h | h
            · simp [h]
            · exact IH.1 e h
          · intro y hy
            rw [hunf] at hy
            simp only [List.map_cons, List.mem_cons] at hy
            rcases hy with h | h
            · exact h ▸ List.mem_cons_self x rest
            · exact List.mem_cons_of_mem x (eraseAll_subset (beh x) rest (IH.2.1 y h))
          · intro hnd l hl
            have hndrest : rest.Nodup := (List.nodup_cons.1 hnd).2
            have hxrest : x ∉ rest := (List.nodup_cons.1 hnd).1
            have hnd1 : (eraseAll rest (beh x)).Nodup := eraseAll_nodup (beh x) rest hndrest
            rw [hunf]
            simp only [List.map_cons]
            by_cases hlx : l = x
            · subst hlx
              have hnotsub :
                  l ∉ ((notifyLoop beh ns (eraseAll rest (beh l)) (eraseAll ls (beh l))).2.map Prod.fst) := by
                intro h
                exact hxrest (eraseAll_subset (beh l) rest (IH.2.1 l h))
              left
              simp [List.count_cons_self, List.count_eq_zero.2 hnotsub]
            · have hlrest : l ∈ rest := by
                rcases List.mem_cons.1 hl with h | h
                · exact absurd h hlx
                · exact h
              by_cases hbeh : l ∈ beh x
              · right
                have hnot1 : l ∉ eraseAll rest (beh x) :=
                  not_mem_eraseAll_of_mem (beh x) rest l hndrest hbeh
                have hnotsub :
                    l ∉ ((notifyLoop beh ns (eraseAll rest (beh x)) (eraseAll ls (beh x))).2.map Prod.fst) :=
                  fun h => hnot1 (IH.2.1 l h)
                refine ⟨?_, x, List.mem_cons_self _ _, hbeh⟩
                simp [List.count_cons_of_ne hlx, List.count_eq_zero.2 hnotsub]
              · have hmem1 : l ∈ eraseAll rest (beh x) :=
                  mem_eraseAll_of_not_mem (beh x) rest l hlrest hbeh
                rcases IH.2.2 hnd1 l hmem1 with h1 | ⟨h0, m, hm, hbm⟩
                · left
                  simp [List.count_cons_of_ne hlx, h1]
                · right
                  refine ⟨by simp [List.count_cons_of_ne hlx, h0], m,
                    List.mem_cons_of_mem _ hm, hbm⟩

/-- CLAIM C3 counterexample.  Listeners 1 and 2 are registered when an
accepted write begins; listener 1, invoked first, calls the unsubscribe
closure of listener 2.  JS `Set.forEach` does not visit an entry deleted
before its turn, so listener 2 — registered at the moment the write began —
is invoked zero times, refuting the claim that no such listener is skipped
even when a listener mutates the listener set during fan-out. -/
theorem setState_fanout_mutation_skips :
    (2 : Nat) ∈ (StoreSt.mk (0 : Nat) [1, 2]).listeners ∧
    ¬ ((((setState (fun n => if n = 1 then [2] else []) (Updater.value 5)
          (StoreSt.mk (0 : Nat) [1, 2])).2.1.map Prod.fst).count 2) = 1) := by
  constructor
  · decide
  · have h : setState (fun n => if n = 1 then [2] else []) (Updater.value 5)
        (StoreSt.mk (0 : Nat) [1, 2]) = (StoreSt.mk 5 [1], [(1, 5)], none) := by
      simp [setState, evalUpd, notifyLoop, eraseAll]
    rw [h]
    decide

/-- CLAIM C3 (amended).  For an accepted write, every invoked listener
receives the new state, and every listener registered at the moment the
write begins is invoked exactly once — unless a listener invoked earlier in
the fan-out unsubscribed it first, in which case it is invoked zero times.
All invocations happen inside `setState` (the log is part of its result),
so they complete before `setState` returns. -/
theorem setState_fanout_exactly_once {T : Type} [DecidableEq T]
    (beh : Nat → List Nat) (st : StoreSt T) (u : Updater T) (c : T)
    (hnd : st.listeners.Nodup) (heval : evalUpd u st.state = Except.ok c)
    (hne : c ≠ st.state) :
    (∀ e ∈ (setState beh u st).2.1, e.2 = c) ∧
    (∀ l ∈ st.listeners,
      (((setState beh u st).2.1.map Prod.fst).count l = 1) ∨
      ((((setState beh u st).2.1.map Prod.fst).count l = 0) ∧
        ∃ m ∈ (setState beh u st).2.1.map Prod.fst, l ∈ beh m)) := by
  have hset : (setState beh u st).2.1 = (notifyLoop beh c st.listeners st.listeners).2 := by
    simp [setState, heval, hne]
  have H := notifyLoop_spec_aux beh c st.listeners.length st.listeners st.listeners
    (Nat.le_refl _)
  rw [hset]
  exact ⟨H.1, fun l hl => H.2.2 hnd l hl⟩

theorem setState_fanout_exactly_once_witness :
    (((setState behPure (Updater.value 5)
        (StoreSt.mk (0 : Nat) [1, 2])).2.1.map Prod.fst).count 1) = 1 := by
  have h := (setState_fanout_exactly_once behPure (StoreSt.mk (0 : Nat) [1, 2])
    (Updater.value 5) 5 (by decide) rfl (by decide)).2 1 (by decide)
  rcases h with h | ⟨h0, m, hm, hbm⟩
  · exact h
  · cases hbm

end ReactFoam
